import Mathlib

/-!
Formal model of the OML diagram VS Code extension: the graph synthesizer
(diagramToSprotty and makeUniqueId in src/language/diagram-layout.ts), the
layout adapter (computeLaidOutSModelForUri), the identifier codec shared by
the webview client (NavigationHandler.resolveNavigationId in
src/extension/webview/diagram-client.ts) and the language-server navigation
handler (the NavigateToElementRequest handler in the server entry point),
and the webview pan/zoom controller (PanZoomController).

Machine floating-point numbers are modelled as exact rationals; JavaScript
regular expressions are modelled as executable string functions with the
lazy/backtracking semantics of the concrete patterns appearing in the code.
-/

/-! ## Pan/zoom controller (PanZoomController in diagram-client.ts) -/

/-- MIN_SCALE = 0.2 in diagram-client.ts. -/
def minScale : ℚ := 1/5

/-- MAX_SCALE = 3 in diagram-client.ts. -/
def maxScale : ℚ := 3

/-- PanZoomController.clamp: Math.max(min, Math.min(max, value)). -/
def pzClamp (value lo hi : ℚ) : ℚ := max lo (min hi value)

/-- Mutable state of PanZoomController (pan/scale plus pinch-gesture
bookkeeping), with the initial field values from the class declaration. -/
structure PZState where
  isPanning : Bool := false
  startX : ℚ := 0
  startY : ℚ := 0
  panX : ℚ := 0
  panY : ℚ := 0
  scale : ℚ := 1
  pinchActive : Bool := false
  pinchStartDist : ℚ := 0
  pinchStartScale : ℚ := 1
  pinchStartPanX : ℚ := 0
  pinchStartPanY : ℚ := 0
  pinchCenterX : ℚ := 0
  pinchCenterY : ℚ := 0
deriving Repr, DecidableEq

/-- Initial state of the controller. -/
def PZState.init : PZState := {}

/-- PanZoomController.zoomAt(newScale, cx, cy): clamp the scale, and if it
changed, recenter the pan so the local point (cx, cy) stays fixed. -/
def zoomAt (st : PZState) (newScale cx cy : ℚ) : PZState :=
  let s0 := st.scale
  let s1 := pzClamp newScale minScale maxScale
  if s1 = s0 then st
  else
    { st with
      panX := st.panX + (1 - s1 / s0) * (cx - st.panX)
      panY := st.panY + (1 - s1 / s0) * (cy - st.panY)
      scale := s1 }

/-- PanZoomController.onWheel: zoomAt(scale * zoomFactor, cx, cy).  The wheel
factor Math.exp(-e.deltaY * 0.001) is modelled as an arbitrary rational
parameter; the exponential is always positive, and zoomAt clamps any value
anyway. -/
def onWheel (st : PZState) (zoomFactor cx cy : ℚ) : PZState :=
  zoomAt st (st.scale * zoomFactor) cx cy

/-- The pinch initialization handler of PanZoomController: record the starting distance, scale,
pan and midpoint of a two-finger gesture. -/
def pinchBegin (st : PZState) (dist cx cy : ℚ) : PZState :=
  { st with
    pinchActive := true
    pinchStartDist := dist
    pinchStartScale := st.scale
    pinchStartPanX := st.panX
    pinchStartPanY := st.panY
    pinchCenterX := cx
    pinchCenterY := cy
    isPanning := false }

/-- PanZoomController.handlePinchMove: rescale about the recorded pinch
midpoint.  Guarded by pinchActive as in onTouchMove.  Over exact rational
arithmetic, division by a zero pinchStartDist yields 0 (and is then clamped),
where JavaScript floats would produce Infinity (clamped to 3). -/
def handlePinchMove (st : PZState) (dist : ℚ) : PZState :=
  if st.pinchActive then
    let newScale := pzClamp (st.pinchStartScale * (dist / st.pinchStartDist)) minScale maxScale
    let s0 := st.scale
    let s1 := newScale
    { st with
      panX := st.pinchStartPanX + (1 - s1 / s0) * (st.pinchCenterX - st.pinchStartPanX)
      panY := st.pinchStartPanY + (1 - s1 / s0) * (st.pinchCenterY - st.pinchStartPanY)
      scale := newScale }
  else st

/-- PanZoomController.onTouchEnd with no remaining touches. -/
def pinchEnd (st : PZState) : PZState :=
  { st with isPanning := false, pinchActive := false }

/-- A zoom-affecting interaction step: wheel zoom, pinch start, pinch move,
or gesture end. -/
inductive PZOp where
  | wheel (zoomFactor cx cy : ℚ)
  | pinchStart (dist cx cy : ℚ)
  | pinchMove (dist : ℚ)
  | touchEnd
deriving Repr

/-- Apply one interaction step to the controller state. -/
def applyPZOp (st : PZState) : PZOp → PZState
  | .wheel f cx cy => onWheel st f cx cy
  | .pinchStart d cx cy => pinchBegin st d cx cy
  | .pinchMove d => handlePinchMove st d
  | .touchEnd => pinchEnd st

/-- Apply a sequence of interaction steps, oldest first. -/
def applyPZOps (st : PZState) (ops : List PZOp) : PZState :=
  ops.foldl applyPZOp st

/-- The scale invariant of the controller. -/
def ScaleInRange (st : PZState) : Prop := minScale ≤ st.scale ∧ st.scale ≤ maxScale

/-! ## Identifier codec

The decode patterns are JavaScript regular expressions.  Each one is
embedded as an executable function over the character list of the input,
reproducing the first-match (leftmost, lazy) semantics of the concrete
pattern.  The class of characters matched by an unescaped dot (anything but
a line terminator) is made explicit. -/

/-- Characters matched by the regexp dot (no s-flag): everything except the
four JavaScript line terminators. -/
def regexDot (c : Char) : Bool :=
  !(c == '\n' || c == '\r' || c == '\u2028' || c == '\u2029')

/-- Characters matched by the regexp digit class. -/
def isDigitChar (c : Char) : Bool := '0' ≤ c && c ≤ '9'

/-- String suffix test over the character list (same result as the byte
based core function on the ids at hand, and reducible by the kernel). -/
def strEndsWith (s suffix : String) : Bool := suffix.data.isSuffixOf s.data

/-- String prefix test over the character list. -/
def strStartsWith (s pre : String) : Bool := pre.data.isPrefixOf s.data

/-- Removal of the final n characters, over the character list. -/
def strDropRight (s : String) (n : ℕ) : String :=
  List.asString (s.data.take (s.data.length - n))

/-- Scanner for a leading lazy group: the smallest non-empty prefix of
dot-matching characters after which the rest of the pattern (decided by ok)
matches the remaining characters.  Returns the captured group. -/
def lazyCapture (ok : List Char → Bool) : List Char → List Char → Option (List Char)
  | acc, c :: cs =>
    if regexDot c then
      let extended := acc ++ [c]
      if ok cs then some extended else lazyCapture ok extended cs
    else none
  | _, [] => none

/-- Rest-of-pattern check for a literal separator followed by a tail check. -/
def sepThen (sep : List Char) (tailOk : List Char → Bool) (cs : List Char) : Bool :=
  sep.isPrefixOf cs && tailOk (cs.drop sep.length)

/-- Tail check for a lazy dot-group closed by a bracket at the end of input:
the remaining characters are a non-empty dot-matching body and a final
closing bracket. -/
def bracketTail (l : List Char) : Bool :=
  2 ≤ l.length && l.getLast? == some ']' && l.dropLast.all regexDot

/-- Tail check for one or more digits closed by a bracket at the end of
input. -/
def digitsBracketTail (l : List Char) : Bool :=
  2 ≤ l.length && l.getLast? == some ']' && l.dropLast.all isDigitChar

/-- Tail check for digits, a closing bracket, the literal -edge and final
digits. -/
def digitsBracketEdgeTail (l : List Char) : Bool :=
  let ds := l.takeWhile isDigitChar
  let rest := l.drop ds.length
  !ds.isEmpty && "]-edge".toList.isPrefixOf rest &&
    (let es := rest.drop 6
     !es.isEmpty && es.all isDigitChar)

/-- Literal tag followed by one or more digits reaching the end of input. -/
def tagDigitsTail (tag : List Char) (cs : List Char) : Bool :=
  tag.isPrefixOf cs &&
    (let es := cs.drop tag.length
     !es.isEmpty && es.all isDigitChar)

/-- Specialization edge pattern of the client decoder (diagram-client.ts):
open bracket, lazy group, bracket-arrow-bracket, body, closing bracket. -/
def matchSpecEdge (s : String) : Option String :=
  match s.toList with
  | '[' :: rest =>
    (lazyCapture (sepThen "]->[".toList bracketTail) [] rest).map List.asString
  | _ => none

/-- Direct equivalence edge pattern of the client decoder. -/
def matchDirectEq (s : String) : Option String :=
  match s.toList with
  | '[' :: rest =>
    (lazyCapture (sepThen "]<->[".toList bracketTail) [] rest).map List.asString
  | _ => none

/-- Equivalence group node pattern of the client decoder (the second
bracketed part is an index made of digits). -/
def matchEqGroupNode (s : String) : Option String :=
  match s.toList with
  | '[' :: rest =>
    (lazyCapture (sepThen "]<->[".toList digitsBracketTail) [] rest).map List.asString
  | _ => none

/-- Equivalence group edge pattern of the client decoder (index plus an
-edge suffix with digits). -/
def matchEqGroupEdge (s : String) : Option String :=
  match s.toList with
  | '[' :: rest =>
    (lazyCapture (sepThen "]<->[".toList digitsBracketEdgeTail) [] rest).map List.asString
  | _ => none

/-- Relation entity edge check shared by client and server: an id ending in
-edge1 or -edge2, decoded by stripping the suffix. -/
def stripRelEdgeSuffix (s : String) : Option String :=
  if strEndsWith s "-edge1" || strEndsWith s "-edge2" then some (strDropRight s 6) else none

/-- Relation instance edge pattern shared by client and server: a lazy
group, then -source-edge or -target-edge, then final digits. -/
def matchRelInstanceEdge (s : String) : Option String :=
  (lazyCapture
    (fun cs => tagDigitsTail "-source-edge".toList cs || tagDigitsTail "-target-edge".toList cs)
    [] s.toList).map List.asString

/-! ## The laid-out graph model sent to the webview

The graphs this system builds are three levels deep: a root of type graph,
node and edge elements, and their label children.  Rational coordinates
stand for the float coordinates of the real model. -/

/-- A two-dimensional point. -/
structure Pt where
  x : ℚ
  y : ℚ
deriving Repr, DecidableEq, Inhabited

/-- Key-value layout options as built by object literals in the code.  A
later binding for the same key overrides an earlier one, as with object
spread. -/
abbrev Opts := List (String × String)

/-- Property access on an options object built from the recorded bindings:
the last binding of the key wins, as in a JavaScript object literal with
spreads. -/
def optsLookup (opts : Opts) (k : String) : Option String :=
  opts.foldl (fun acc p => if p.1 = k then some p.2 else acc) none

/-- A label child element. -/
structure SLab where
  id : String
  type : String := "label"
  text : String := ""
  position : Option Pt := none
  layoutOptions : Opts := []
deriving Repr, DecidableEq, Inhabited

/-- A node or edge element of the graph. -/
structure SElem where
  id : String
  type : String
  kind : Option String := none
  hasMarker : Option Bool := none
  sourceId : Option String := none
  targetId : Option String := none
  labelIndex : Option ℕ := none
  types : List String := []
  props : List String := []
  size : Option Pt := none
  position : Option Pt := none
  routingPoints : List Pt := []
  cssClasses : List String := []
  layoutOptions : Opts := []
  children : List SLab := []
deriving Repr, DecidableEq, Inhabited

/-- The root element of the graph. -/
structure SRoot where
  id : String
  type : String
  layoutOptions : Opts := []
  children : List SElem := []
deriving Repr, DecidableEq, Inhabited

/-- findElementById in diagram-client.ts: depth-first search by id through
the model tree; the decoder only consumes the type and kind of the found
element, which is what this returns (labels have no kind). -/
def findElementById (r : SRoot) (i : String) : Option (String × Option String) :=
  if r.id = i then some (r.type, none)
  else r.children.findSome? (fun e =>
    if e.id = i then some (e.type, e.kind)
    else e.children.findSome? (fun l =>
      if l.id = i then some (l.type, none) else none))

/-- The model-guarded relation entity branch of resolveNavigationId: strip
an -edge1 or -edge2 suffix and accept only when the base id names a node of
kind relation-entity in the current model. -/
def clientRelEntity (m : SRoot) (searchId : String) : Option String :=
  if strEndsWith searchId "-edge1" || strEndsWith searchId "-edge2" then
    let qualifiedName := strDropRight searchId 6
    match findElementById m qualifiedName with
    | some (ty, kind) =>
      if strStartsWith ty "node" && kind == some "relation-entity" then some qualifiedName
      else none
    | none => none
  else none

/-- The model-guarded relation instance branch of resolveNavigationId. -/
def clientRelInstance (m : SRoot) (searchId : String) : Option String :=
  match matchRelInstanceEdge searchId with
  | some qualifiedName =>
    match findElementById m qualifiedName with
    | some (ty, kind) =>
      if strStartsWith ty "node" && kind == some "relation-instance" then some qualifiedName
      else none
    | none => none
  | none => none

/-- NavigationHandler.resolveNavigationId in diagram-client.ts: decode a
clicked element id to the member name to navigate to.  Without a model the
id is returned unchanged; otherwise the branches run in source order:
relation entity edge, relation instance edge, equivalence group edge,
equivalence group node, specialization edge, direct equivalence edge, and
finally the id itself. -/
def resolveNavigationId (model : Option SRoot) (searchId : String) : String :=
  match model with
  | none => searchId
  | some m =>
    match clientRelEntity m searchId with
    | some r => r
    | none =>
      match clientRelInstance m searchId with
      | some r => r
      | none =>
        match matchEqGroupEdge searchId with
        | some g => g
        | none =>
          match matchEqGroupNode searchId with
          | some g => g
          | none =>
            match matchSpecEdge searchId with
            | some g => g
            | none =>
              match matchDirectEq searchId with
              | some g => g
              | none => searchId

/-- Generic first-match cascade over pattern functions, falling back to the
input itself. -/
def firstPatternMatch (ps : List (String → Option String)) (s : String) : String :=
  match ps with
  | [] => s
  | p :: rest =>
    match p s with
    | some g => g
    | none => firstPatternMatch rest s

/-- Following the words of the specification (section 4.3): the decode table
tried strictly in table order — specialization, direct equivalence,
equivalence-group node, equivalence-group edge, relation-entity edge,
relation-instance edge, identity fallback — with the first structurally
matching pattern winning. -/
def tableOrderDecode (s : String) : String :=
  firstPatternMatch
    [matchSpecEdge, matchDirectEq, matchEqGroupNode, matchEqGroupEdge,
     stripRelEdgeSuffix, matchRelInstanceEdge] s

/-! ## Server-side decoding (NavigateToElementRequest handler)

The first four patterns in the server file are written, byte for byte, as
regexp literals of the shape seen below for the specialization case:
the two leading backslashes match one literal backslash, the bracket that
follows opens a character class that swallows the intended capture group,
and the pattern contains no capture group at all.  Each such pattern can
only match a two-or-seven character string starting with a backslash, and
when it does match, the handler reads the non-existent first group, so the
member name becomes undefined (modelled as none; the later lookup then
throws and the handler returns null).  The character classes are modelled
exactly.  The namespace/IRI branch of the handler (which searches ontology
declarations and can return early without ever producing a member name) is
not part of the decoding step modelled here. -/

/-- Character class of the mangled specialization regexp: the literal
characters of the class plus the range from the closing parenthesis to the
greater-than sign. -/
def srvClass1 (c : Char) : Bool :=
  c == '(' || c == '.' || c == '+' || c == '?' || c == '"' || c == '\\' || c == '[' ||
    (')' ≤ c && c ≤ '>')

/-- First character class of the mangled equivalence regexps. -/
def srvClass2 (c : Char) : Bool :=
  c == '(' || c == '.' || c == '+' || c == '?' || c == ')' || c == '"'

/-- Second character class of the mangled direct equivalence regexp. -/
def srvClass3 (c : Char) : Bool :=
  c == '.' || c == '+' || c == '?' || c == '"'

/-- Second character class of the mangled equivalence group regexps. -/
def srvClassD (c : Char) : Bool :=
  isDigitChar c || c == '+' || c == '"'

/-- The mangled server specialization pattern: a backslash and one class
character. -/
def srvSpecPattern (s : String) : Bool :=
  match s.toList with
  | ['\\', c] => srvClass1 c
  | _ => false

/-- The mangled server direct equivalence pattern. -/
def srvDirectEqPattern (s : String) : Bool :=
  match s.toList with
  | ['\\', c, '<', '-', '>', '\\', d] => srvClass2 c && srvClass3 d
  | _ => false

/-- The mangled server equivalence group node pattern. -/
def srvEqNodePattern (s : String) : Bool :=
  match s.toList with
  | ['\\', c, '<', '-', '>', '\\', d] => srvClass2 c && srvClassD d
  | _ => false

/-- The mangled server equivalence group edge pattern. -/
def srvEqEdgePattern (s : String) : Bool :=
  match s.toList with
  | '\\' :: c :: '<' :: '-' :: '>' :: '\\' :: d :: rest =>
    srvClass2 c && srvClassD d && tagDigitsTail "-edge".toList rest
  | _ => false

/-- The member-name decoding step of the server navigation handler: the
else-if chain that assigns memberName from elementId.  A result of none
models the undefined member name produced when one of the four mangled
patterns matches (their capture group does not exist). -/
def serverDecodeMember (elementId : String) : Option String :=
  if srvSpecPattern elementId then none
  else if srvDirectEqPattern elementId then none
  else if srvEqNodePattern elementId then none
  else if srvEqEdgePattern elementId then none
  else if strEndsWith elementId "-edge1" || strEndsWith elementId "-edge2" then
    some (strDropRight elementId 6)
  else
    match matchRelInstanceEdge elementId with
    | some q => some q
    | none => some elementId

/-! ## The semantic diagram model (input of the Graph Synthesizer)

The shape of the DiagramModel values consumed by diagramToSprotty: nodes
and edges with kinds, optional labels, type/property text and optional
source ranges.  Optional fields translate fields the code reads with the
nullish operators. -/

/-- A semantic diagram node. -/
structure DNode where
  id : String
  kind : String
  label : Option String := none
  types : Option (List String) := none
  properties : Option (List String) := none
  startLine : Option ℕ := none
  startColumn : Option ℕ := none
  endLine : Option ℕ := none
  endColumn : Option ℕ := none
deriving Repr, DecidableEq

/-- A semantic diagram edge. -/
structure DEdge where
  id : Option String := none
  kind : String
  source : String
  target : String
  label : Option String := none
  hasMarker : Option Bool := none
  startLine : Option ℕ := none
  startColumn : Option ℕ := none
  endLine : Option ℕ := none
  endColumn : Option ℕ := none
deriving Repr, DecidableEq

/-- The semantic diagram model. -/
structure DiagramModel where
  nodes : List DNode := []
  edges : List DEdge := []
deriving Repr, DecidableEq

/-! ## Graph synthesizer (diagramToSprotty in diagram-layout.ts) -/

/-- Rendering of a rational in a template string.  Exact for the integral
values that reach template strings in the claims considered here. -/
def ratStr (q : ℚ) : String := toString q

/-- Rendering of an optional number in a template string: JavaScript prints
undefined for a missing value. -/
def optNumStr : Option ℕ → String
  | some n => Nat.repr n
  | none => "undefined"

/-- The source-range css class built by diagramToSprotty when startLine is
present. -/
def srcRangeClass (sl sc el ec : Option ℕ) : String :=
  "src-" ++ optNumStr sl ++ "-" ++ optNumStr sc ++ "-" ++ optNumStr el ++ "-" ++ optNumStr ec

/-- Math.max over the lengths of a non-empty list of texts. -/
def maxTextLen (ts : List String) : ℚ :=
  ts.foldl (fun a t => max a (t.length : ℚ)) 0

/-- Node synthesis in diagramToSprotty: sizes from label/type/property text,
a source-range css class, and a label child.  Nodes of kind relation are
filtered out by the caller. -/
def mkSprottyNode (n : DNode) : SElem :=
  let nodeWidth : ℚ := 120
  let baseNodeHeight : ℚ := 56
  let avgCharPx : ℚ := 15/2
  let paddingX : ℚ := 24
  let labelText := n.label.getD n.id
  let types := n.types.getD []
  let properties := n.properties.getD []
  let typesText := if types.length > 0 then "«" ++ String.intercalate ", " types ++ "»" else ""
  let allTexts := ([typesText, labelText] ++ properties).filter (fun t => t.length > 0)
  let width : ℚ :=
    if allTexts.isEmpty then nodeWidth
    else max nodeWidth (min 600 (paddingX + avgCharPx * maxTextLen allTexts))
  let propertyLineHeight : ℚ := 16
  let typesLineHeight : ℚ := if types.length > 0 then 16 else 0
  let headerHeight : ℚ := 32
  let propsHeight : ℚ := properties.length * propertyLineHeight
  let height : ℚ := max baseNodeHeight (typesLineHeight + headerHeight + propsHeight + 8)
  let cssClasses :=
    if n.startLine.isSome then [srcRangeClass n.startLine n.startColumn n.endLine n.endColumn]
    else []
  { id := n.id
    type := "node:rect"
    kind := some n.kind
    size := some ⟨width, height⟩
    types := types
    props := properties
    cssClasses := cssClasses
    layoutOptions := [("org.eclipse.elk.portConstraints", "FREE")]
    children := [
      { id := n.id ++ "_label"
        type := "label"
        text := labelText
        layoutOptions := [
          ("org.eclipse.elk.labelSize", ratStr (width - 20) ++ ",20"),
          ("org.eclipse.elk.nodeLabels.offsetY", if types.length > 0 then "28" else "12")] }] }

/-- Candidate ids tried by makeUniqueId: the base followed by a colon and a
counter. -/
def uniqueIdCandidate (base : String) (i : ℕ) : String :=
  base ++ ":" ++ Nat.repr i

/-- The while loop of makeUniqueId, with explicit fuel. -/
def uniqueIdLoop (used : List String) (base : String) : ℕ → ℕ → String
  | 0, i => uniqueIdCandidate base i
  | fuel+1, i =>
    let c := uniqueIdCandidate base i
    if c ∈ used then uniqueIdLoop used base fuel (i+1) else c

/-- makeUniqueId in diagramToSprotty: while the id is taken, try the base
with the next counter value appended.  The while loop is modelled with
explicit fuel; fuel of one more than the size of the used set always
suffices (see makeUniqueId_not_mem below), so the fuel-exhausted branch is
unreachable and the function returns the first free candidate in the same
order as the source loop. -/
def makeUniqueId (used : List String) (base : String) : String :=
  if base ∈ used then uniqueIdLoop used base (used.length + 1) 1 else base

/-- Record lookup on the selfLoopAssigned counters. -/
def assignedLookup : List (String × ℕ) → String → Option ℕ
  | [], _ => none
  | (k, v) :: rest, n => if k = n then some v else assignedLookup rest n

/-- Record update on the selfLoopAssigned counters. -/
def assignedUpdate : List (String × ℕ) → String → ℕ → List (String × ℕ)
  | [], k, v => [(k, v)]
  | (k0, v0) :: rest, k, v =>
    if k0 = k then (k, v) :: rest else (k0, v0) :: assignedUpdate rest k v

/-- Base layout options of a specialization or equivalence edge. -/
def specEdgeBaseOptions : Opts :=
  [("org.eclipse.elk.edge.type", "GENERALIZATION"),
   ("org.eclipse.elk.edge.source.side", "NORTH"),
   ("org.eclipse.elk.edge.target.side", "SOUTH")]

/-- Base layout options of any other edge kind. -/
def assocEdgeBaseOptions : Opts :=
  [("org.eclipse.elk.edge.type", "ASSOCIATION"),
   ("org.eclipse.elk.edge.routing", "POLYLINE")]

/-- Extra layout options of a self-loop edge. -/
def selfLoopExtraOptions : Opts :=
  [("org.eclipse.elk.layered.edgeRouting.selfLoopDistribution", "EQUALLY"),
   ("org.eclipse.elk.layered.edgeRouting.selfLoopPlacement", "NORTH_SEQUENCE"),
   ("org.eclipse.elk.spacing.nodeSelfLoop", "56")]

/-- The edge label placement key used both at synthesis and in the
post-layout adjustment. -/
def elkPlacementKey : String := "org.eclipse.elk.edgeLabels.placement"

/-- The id base of a synthesized edge: the explicit semantic id when it is
truthy (a non-empty string), else source-arrow-target. -/
def edgeBase (e : DEdge) : String :=
  match e.id with
  | some s => if s = "" then e.source ++ "->" ++ e.target else s
  | none => e.source ++ "->" ++ e.target

/-- Width of an edge label: max(60, min(300, length times 7.5 plus 8)). -/
def edgeLabelWidth (lbl : String) : ℚ :=
  max 60 (min 300 ((lbl.length : ℚ) * (15/2) + 8))

/-- Edge synthesis in diagramToSprotty, for one edge with its assigned
unique id and label index. -/
def mkSprottyEdge (e : DEdge) (id : String) (labelIdx : ℕ) (isSpec isSelfLoop : Bool) : SElem :=
  { id := id
    type := "edge"
    kind := some e.kind
    hasMarker := e.hasMarker
    sourceId := some e.source
    targetId := some e.target
    labelIndex := some labelIdx
    cssClasses :=
      if e.startLine.isSome then [srcRangeClass e.startLine e.startColumn e.endLine e.endColumn]
      else []
    layoutOptions :=
      [(elkPlacementKey, "CENTER")] ++
        (if isSpec then specEdgeBaseOptions else assocEdgeBaseOptions) ++
        (if isSelfLoop then selfLoopExtraOptions else [])
    children :=
      match e.label with
      | some lbl =>
        [{ id := id ++ "_label"
           type := "label"
           text := lbl
           layoutOptions := [
             ("org.eclipse.elk.labelSize", ratStr (edgeLabelWidth lbl) ++ "," ++ ratStr 14),
             (elkPlacementKey, "CENTER"),
             ("org.eclipse.elk.edgeLabels.inline", "false"),
             ("org.eclipse.elk.edgeLabels.side", "ABOVE")] }]
      | none => [] }

/-- The edge loop of diagramToSprotty: the used-id set starts from the node
ids and grows with each assigned edge id; self-loops take a per-source-node
occurrence counter whose pre-increment value becomes the label index. -/
def synthEdges : List DEdge → List String → List (String × ℕ) → List SElem
  | [], _, _ => []
  | e :: es, used, assigned =>
    let isSpec := e.kind = "specialization" || e.kind = "equivalence"
    let isSelfLoop := e.source = e.target
    let count := (assignedLookup assigned e.source).getD 0
    let assignedNext := if isSelfLoop then assignedUpdate assigned e.source (count + 1) else assigned
    let id := makeUniqueId used (edgeBase e)
    mkSprottyEdge e id (if isSelfLoop then count else 0) isSpec isSelfLoop ::
      synthEdges es (id :: used) assignedNext

/-- diagramToSprotty in diagram-layout.ts: nodes (all but pure relations),
then edges with disambiguated ids, under a root that itself carries layered
algorithm and direction DOWN in its layoutOptions.  The dangling-reference
console warnings are pure logging and have no effect on the result. -/
def diagramToSprotty (m : DiagramModel) : SRoot :=
  let nodes := (m.nodes.filter (fun n => n.kind ≠ "relation")).map mkSprottyNode
  let usedIds := nodes.map (fun n => n.id)
  let edges := synthEdges m.edges usedIds []
  { id := "root"
    type := "graph"
    layoutOptions := [
      ("org.eclipse.elk.algorithm", "org.eclipse.elk.layered"),
      ("org.eclipse.elk.direction", "DOWN")]
    children := nodes ++ edges }

/-- The edge elements of a synthesized graph. -/
def sprottyEdges (m : DiagramModel) : List SElem :=
  (diagramToSprotty m).children.filter (fun c => c.type = "edge")

/-! ## Layout adapter (OmlLayoutConfigurator and computeLaidOutSModelForUri) -/

/-- OmlLayoutConfigurator.graphOptions: the option map returned to the
sprotty-elk layout engine for the root graph. -/
def omlGraphOptions : Opts :=
  [("org.eclipse.elk.algorithm", "org.eclipse.elk.layered"),
   ("org.eclipse.elk.direction", "UP"),
   ("org.eclipse.elk.layered.layering.strategy", "LONGEST_PATH"),
   ("org.eclipse.elk.layered.cycleBreaking.strategy", "DEPTH_FIRST"),
   ("org.eclipse.elk.layered.considerModelOrder.strategy", "PREFER_NODES"),
   ("org.eclipse.elk.layered.nodePlacement.strategy", "BRANDES_KOEPF"),
   ("org.eclipse.elk.layered.nodePlacement.bk.fixedAlignment", "CENTER"),
   ("org.eclipse.elk.edgeRouting", "POLYLINE"),
   ("org.eclipse.elk.layered.edgeRouting", "POLYLINE"),
   ("org.eclipse.elk.layered.mergeEdges", "false"),
   ("org.eclipse.elk.layered.crossingMinimization.separateEdgeGroups", "true"),
   ("org.eclipse.elk.layered.spacing.nodeNodeBetweenLayers", "72"),
   ("org.eclipse.elk.spacing.nodeNode", "28"),
   ("org.eclipse.elk.spacing.edgeNode", "24"),
   ("org.eclipse.elk.spacing.edgeEdge", "18"),
   ("org.eclipse.elk.spacing.portPort", "12"),
   ("org.eclipse.elk.insideSelfLoops.activate", "true"),
   ("org.eclipse.elk.spacing.nodeSelfLoop", "48"),
   ("org.eclipse.elk.layered.edgeRouting.selfLoopDistribution", "EQUALLY"),
   ("org.eclipse.elk.layered.edgeRouting.selfLoopOrdering", "STACKED"),
   ("org.eclipse.elk.layered.edgeRouting.selfLoopPlacement", "NORTH_SEQUENCE")]

/-- OmlLayoutConfigurator.labelOptions. -/
def omlLabelOptions : Opts :=
  [("org.eclipse.elk.nodeLabels.placement", "INSIDE, H_CENTER, V_TOP")]

/-- Update the position of the first label child, the one found by the
label search in the adjustment loop. -/
def setFirstLabelPosition : List SLab → Pt → List SLab
  | [], _ => []
  | l :: ls, p =>
    if l.type = "label" then { l with position := some p } :: ls
    else l :: setFirstLabelPosition ls p

/-- The post-layout label adjustment of computeLaidOutSModelForUri for one
child: only edges whose recorded edge-label placement is TAIL and whose
routing polyline has a final segment of non-zero length get their label
moved 12 units before the arrowhead.  The square-root norm of the float
code is taken as a parameter (hypot); the zero test on it is the zero test
of the source.  The routingPoints field stands for the routingPoints,
points or bendPoints fallback chain of the source. -/
def adjustEdgeLabelChild (hypot : ℚ → ℚ → ℚ) (child : SElem) : SElem :=
  if child.type = "edge" then
    match child.children.find? (fun c => c.type == "label") with
    | none => child
    | some _ =>
      if optsLookup child.layoutOptions elkPlacementKey ≠ some "TAIL" then child
      else
        let pts := child.routingPoints
        if pts.length < 2 then child
        else
          match pts.reverse with
          | lastPt :: prevPt :: _ =>
            let dx := lastPt.x - prevPt.x
            let dy := lastPt.y - prevPt.y
            let dist := hypot dx dy
            if dist = 0 then child
            else
              let ux := dx / dist
              let uy := dy / dist
              { child with
                children := setFirstLabelPosition child.children
                  ⟨lastPt.x - ux * 12, lastPt.y - uy * 12⟩ }
          | _ => child
  else child

/-- The post-layout adjustment applied to all children. -/
def adjustEdgeLabels (hypot : ℚ → ℚ → ℚ) (children : List SElem) : List SElem :=
  children.map (adjustEdgeLabelChild hypot)

/-- The try/catch around the layout engine in computeLaidOutSModelForUri:
on success the adjusted laid-out graph is returned; on any engine error the
pre-layout root is returned unchanged and no exception escapes.  The
external ELK engine is a parameter returning either a laid-out graph or an
error. -/
def computeLaidOut (hypot : ℚ → ℚ → ℚ) (root : SRoot)
    (engine : SRoot → Except String SRoot) : SRoot :=
  match engine root with
  | Except.ok laidOut => { laidOut with children := adjustEdgeLabels hypot laidOut.children }
  | Except.error _ => root

/-- No node, edge or label of the graph carries a position. -/
def noPositions (r : SRoot) : Bool :=
  r.children.all (fun c => c.position == none && c.children.all (fun l => l.position == none))

/-! ## Concrete inputs used in the claim evaluations -/

/-- The model of Scenario A in the specification: two concept nodes and one
specialization edge with explicit id A-arrow-B. -/
def scenarioAModel : DiagramModel :=
  { nodes := [{ id := "A", kind := "concept" }, { id := "B", kind := "concept" }]
    edges := [{ id := some "A->B", kind := "specialization", source := "A", target := "B" }] }

/-- Scenario A with the edge id already in the bracketed encoded form. -/
def scenarioAEncodedModel : DiagramModel :=
  { nodes := [{ id := "A", kind := "concept" }, { id := "B", kind := "concept" }]
    edges := [{ id := some "[A]->[B]", kind := "specialization", source := "A", target := "B" }] }

/-- The synthesized graph of the encoded Scenario A model. -/
def scenarioAGraph : SRoot := diagramToSprotty scenarioAEncodedModel

/-- A model with two self-loops on one node around an ordinary edge. -/
def selfLoopModel : DiagramModel :=
  { nodes := [{ id := "S", kind := "concept" }, { id := "T", kind := "concept" }]
    edges := [
      { id := some "L1", kind := "relation", source := "S", target := "S" },
      { id := some "E1", kind := "specialization", source := "S", target := "T" },
      { id := some "L2", kind := "relation", source := "S", target := "S" }] }

/-- A model whose two nodes share one id. -/
def dupNodeModel : DiagramModel :=
  { nodes := [{ id := "A", kind := "concept" }, { id := "A", kind := "concept" }]
    edges := [] }

/-- An empty webview model. -/
def trivialRoot : SRoot := { id := "root", type := "graph" }

/-! ## Theorems -/

theorem pzClamp_mem (v : ℚ) : minScale ≤ pzClamp v minScale maxScale ∧
    pzClamp v minScale maxScale ≤ maxScale := by
  constructor
  · exact le_max_left _ _
  · exact max_le (by norm_num [minScale, maxScale]) (min_le_left _ _)

theorem applyPZOp_scale_inv (st : PZState) (op : PZOp) (h : ScaleInRange st) :
    ScaleInRange (applyPZOp st op) := by
  cases op with
  | wheel f cx cy =>
    simp only [applyPZOp, onWheel, zoomAt]
    split
    · exact h
    · exact pzClamp_mem _
  | pinchStart d cx cy => exact h
  | pinchMove d =>
    simp only [applyPZOp, handlePinchMove]
    split
    · exact pzClamp_mem _
    · exact h
  | touchEnd => exact h

theorem applyPZOps_scale_inv (st : PZState) (ops : List PZOp) (h : ScaleInRange st) :
    ScaleInRange (applyPZOps st ops) := by
  induction ops generalizing st with
  | nil => exact h
  | cons op ops ih => exact ih _ (applyPZOp_scale_inv st op h)

/-- C7: starting from the initial state (scale 1), any sequence of wheel-zoom
and pinch-zoom operations leaves the scale within the interval from 0.2 to
3.0. -/
theorem claim_C7_scale_always_clamped (ops : List PZOp) :
    minScale ≤ (applyPZOps PZState.init ops).scale ∧
      (applyPZOps PZState.init ops).scale ≤ maxScale :=
  applyPZOps_scale_inv PZState.init ops
    (by norm_num [ScaleInRange, PZState.init, minScale, maxScale])

/-- C8: a wheel zoom at local point (cx, cy) updates the pan to
pan + (1 − s1/s0)·(point − pan), where s1 is the new clamped scale and s0
the old scale, and consequently the diagram coordinate under the pointer —
(point − pan)/scale — is exactly the same before and after the operation,
over exact arithmetic. -/
theorem claim_C8_zoom_about_point (st : PZState) (newScale cx cy : ℚ)
    (h : 0 < st.scale) :
    (zoomAt st newScale cx cy).panX
        = st.panX + (1 - (zoomAt st newScale cx cy).scale / st.scale) * (cx - st.panX) ∧
    (zoomAt st newScale cx cy).panY
        = st.panY + (1 - (zoomAt st newScale cx cy).scale / st.scale) * (cy - st.panY) ∧
    (cx - (zoomAt st newScale cx cy).panX) / (zoomAt st newScale cx cy).scale
        = (cx - st.panX) / st.scale ∧
    (cy - (zoomAt st newScale cx cy).panY) / (zoomAt st newScale cx cy).scale
        = (cy - st.panY) / st.scale := by
  have hs0 : st.scale ≠ 0 := ne_of_gt h
  have hs1 : 0 < pzClamp newScale minScale maxScale :=
    lt_of_lt_of_le (by norm_num [minScale]) (pzClamp_mem newScale).1
  have hs1ne : pzClamp newScale minScale maxScale ≠ 0 := ne_of_gt hs1
  simp only [zoomAt]
  split
  · refine ⟨?_, ?_, rfl, rfl⟩ <;>
      · rw [div_self hs0]; ring
  · refine ⟨rfl, rfl, ?_, ?_⟩ <;>
      · field_simp
        ring

/-- Witness for C8 at a concrete state: a wheel zoom to scale 2 about the
point (10, 20) from the initial state keeps the pointer over the same
diagram coordinate. -/
theorem claim_C8_witness :
    (0 : ℚ) < PZState.init.scale ∧
      (10 - (zoomAt PZState.init 2 10 20).panX) / (zoomAt PZState.init 2 10 20).scale
        = (10 - PZState.init.panX) / PZState.init.scale :=
  ⟨by norm_num [PZState.init], (claim_C8_zoom_about_point PZState.init 2 10 20
      (by norm_num [PZState.init])).2.2.1⟩

/-- C1: on the identifier of a specialization edge the two decoders
disagree: the client decodes the bracketed id to the member name A, while
the server-side member decoding — whose first four regexp literals are
mangled (they demand a literal backslash and contain no capture group, see
the definitions of the srv patterns) — falls through every pattern and uses
the whole id as the member name.  This contradicts the comments directly
above the server patterns, which state the intended bracketed shapes. -/
theorem claim_C1_divergence :
    resolveNavigationId (some scenarioAGraph) "[A]->[B]" = "A" ∧
    serverDecodeMember "[A]->[B]" = some "[A]->[B]" ∧
    serverDecodeMember "[A]->[B]" ≠ some (resolveNavigationId (some scenarioAGraph) "[A]->[B]") := by
  refine ⟨by decide, by decide, by decide⟩

/-- C2 counterexample: on the Scenario A model, whose semantic edge id is
the plain A->B, the synthesizer emits the visual edge id A->B verbatim —
not the bracketed form — and decoding A->B falls through to the identity,
not to the member name A. -/
theorem claim_C2_counterexample :
    (sprottyEdges scenarioAModel).map (fun e => e.id) = ["A->B"] ∧
    ("A->B" : String) ≠ "[A]->[B]" ∧
    resolveNavigationId (some (diagramToSprotty scenarioAModel)) "A->B" = "A->B" := by
  refine ⟨by decide, by decide, by decide⟩

/-- C2 amended: the synthesizer copies semantic edge ids verbatim, so the
bracketed visual edge id arises exactly when the semantic edge id is
already the encoded bracketed form; for that input the visual edge id is
the bracketed id and decoding it (client decode, and likewise the table
order) returns the member name A. -/
theorem claim_C2_amended :
    (sprottyEdges scenarioAEncodedModel).map (fun e => e.id) = ["[A]->[B]"] ∧
    resolveNavigationId (some scenarioAGraph) "[A]->[B]" = "A" ∧
    tableOrderDecode "[A]->[B]" = "A" := by
  refine ⟨by decide, by decide, by decide⟩

/-- C3 counterexample: on an identifier that matches both the
specialization pattern and the equivalence-group-node pattern, the client
decode (which tries the equivalence-group patterns first) returns a
different member name than the table-order decode of the specification
(specialization first); the server decoding also disagrees with the table
order there. -/
theorem claim_C3_counterexample :
    resolveNavigationId (some trivialRoot) "[X]->[Y]<->[2]" = "X]->[Y" ∧
    tableOrderDecode "[X]->[Y]<->[2]" = "X" ∧
    resolveNavigationId (some trivialRoot) "[X]->[Y]<->[2]" ≠ tableOrderDecode "[X]->[Y]<->[2]" ∧
    serverDecodeMember "[X]->[Y]<->[2]" = some "[X]->[Y]<->[2]" := by
  refine ⟨by decide, by decide, by decide, by decide⟩

/-- C4 counterexample: the synthesized root graph itself — the object handed
to the layout engine — carries direction DOWN in its own layoutOptions. -/
theorem claim_C4_counterexample :
    optsLookup (diagramToSprotty scenarioAModel).layoutOptions "org.eclipse.elk.direction"
        = some "DOWN" ∧
    (some "DOWN" : Option String) ≠ some "UP" := by
  refine ⟨rfl, by decide⟩

/-- C4 amended: the layout configurator option map does set the direction
to upward, with longest-path layering, depth-first cycle breaking,
Brandes-Koepf node placement with centered alignment and polyline routing;
the synthesized root graph, however, embeds direction DOWN in its own
layoutOptions for every model. -/
theorem claim_C4_amended :
    optsLookup omlGraphOptions "org.eclipse.elk.direction" = some "UP" ∧
    optsLookup omlGraphOptions "org.eclipse.elk.layered.layering.strategy" = some "LONGEST_PATH" ∧
    optsLookup omlGraphOptions "org.eclipse.elk.layered.cycleBreaking.strategy" = some "DEPTH_FIRST" ∧
    optsLookup omlGraphOptions "org.eclipse.elk.layered.nodePlacement.strategy" = some "BRANDES_KOEPF" ∧
    optsLookup omlGraphOptions "org.eclipse.elk.layered.nodePlacement.bk.fixedAlignment" = some "CENTER" ∧
    optsLookup omlGraphOptions "org.eclipse.elk.edgeRouting" = some "POLYLINE" ∧
    ∀ m : DiagramModel,
      optsLookup (diagramToSprotty m).layoutOptions "org.eclipse.elk.direction" = some "DOWN" := by
  refine ⟨by decide, by decide, by decide, by decide, by decide, by decide, fun m => rfl⟩

theorem mem_of_getLastQ {l : List Char} {a : Char} (h : l.getLast? = some a) : a ∈ l := by
  cases l with
  | nil => simp at h
  | cons x xs =>
    rw [List.getLast?_eq_getLast _ (by simp), Option.some_inj] at h
    exact h ▸ List.getLast_mem _

theorem getLast_of_suffix {l xs : List Char} (hne : l ≠ []) (h : l <:+ xs) :
    xs.getLast? = l.getLast? := by
  obtain ⟨pre, rfl⟩ := h
  exact List.getLast?_append_of_ne_nil pre hne

theorem lazyCapture_ok_suffix (ok : List Char → Bool) :
    ∀ (acc cs g : List Char), lazyCapture ok acc cs = some g →
      ∃ csR, csR <:+ cs ∧ ok csR = true := by
  intro acc cs
  induction cs generalizing acc with
  | nil => intro g h; simp [lazyCapture] at h
  | cons c cs ih =>
    intro g h
    simp only [lazyCapture] at h
    by_cases hd : regexDot c
    · rw [if_pos hd] at h
      by_cases hok : ok cs = true
      · exact ⟨cs, List.suffix_cons c cs, hok⟩
      · rw [if_neg hok] at h
        obtain ⟨csR, hs, hokR⟩ := ih _ _ h
        exact ⟨csR, hs.trans (List.suffix_cons c cs), hokR⟩
    · rw [if_neg hd] at h; cases h

theorem bracketTail_getLast {l : List Char} (h : bracketTail l = true) :
    l ≠ [] ∧ l.getLast? = some ']' := by
  simp only [bracketTail, Bool.and_eq_true, decide_eq_true_eq, beq_iff_eq] at h
  exact ⟨by rintro rfl; simp at h, h.1.2⟩

theorem matchSpecEdge_lastChar {s g : String} (h : matchSpecEdge s = some g) :
    s.data.getLast? = some ']' := by
  unfold matchSpecEdge at h
  split at h
  case _ rest heq =>
    obtain ⟨a, ha, _⟩ := Option.map_eq_some'.mp h
    obtain ⟨csR, hsuf, hok⟩ := lazyCapture_ok_suffix _ _ _ _ ha
    simp only [sepThen, Bool.and_eq_true] at hok
    obtain ⟨hne, hlast⟩ := bracketTail_getLast hok.2
    have h1 : (csR.drop 4) <:+ s.data := by
      calc csR.drop 4 <:+ csR := List.drop_suffix _ _
        _ <:+ rest := hsuf
        _ <:+ s.data := by rw [show s.data = s.toList from rfl, heq]; exact List.suffix_cons _ _
    rw [getLast_of_suffix hne h1]
    simpa using hlast
  case _ => cases h

theorem matchDirectEq_lastChar {s g : String} (h : matchDirectEq s = some g) :
    s.data.getLast? = some ']' := by
  unfold matchDirectEq at h
  split at h
  case _ rest heq =>
    obtain ⟨a, ha, _⟩ := Option.map_eq_some'.mp h
    obtain ⟨csR, hsuf, hok⟩ := lazyCapture_ok_suffix _ _ _ _ ha
    simp only [sepThen, Bool.and_eq_true] at hok
    obtain ⟨hne, hlast⟩ := bracketTail_getLast hok.2
    have h1 : (csR.drop 5) <:+ s.data := by
      calc csR.drop 5 <:+ csR := List.drop_suffix _ _
        _ <:+ rest := hsuf
        _ <:+ s.data := by rw [show s.data = s.toList from rfl, heq]; exact List.suffix_cons _ _
    rw [getLast_of_suffix hne h1]
    simpa using hlast
  case _ => cases h

theorem tagDigitsTail_lastDigit {tag cs : List Char} (h : tagDigitsTail tag cs = true) :
    ∃ c, cs.getLast? = some c ∧ isDigitChar c = true := by
  simp only [tagDigitsTail, Bool.and_eq_true] at h
  obtain ⟨-, hne, hall⟩ := h
  have hne' : cs.drop tag.length ≠ [] := by
    simpa [List.isEmpty_iff] using hne
  have hsuf : cs.drop tag.length <:+ cs := List.drop_suffix _ _
  rw [getLast_of_suffix hne' hsuf]
  match hv : (cs.drop tag.length).getLast? with
  | none => exact absurd (List.getLast?_eq_none_iff.mp hv) hne'
  | some c =>
    refine ⟨c, rfl, ?_⟩
    exact (List.all_eq_true.mp hall) _ (mem_of_getLastQ hv)

theorem matchRelInstance_lastDigit {s g : String} (h : matchRelInstanceEdge s = some g) :
    ∃ c, s.data.getLast? = some c ∧ isDigitChar c = true := by
  unfold matchRelInstanceEdge at h
  obtain ⟨a, ha, _⟩ := Option.map_eq_some'.mp h
  obtain ⟨csR, hsuf, hok⟩ := lazyCapture_ok_suffix _ _ _ _ ha
  rw [Bool.or_eq_true] at hok
  have : ∃ c, csR.getLast? = some c ∧ isDigitChar c = true := by
    rcases hok with hok | hok
    · exact tagDigitsTail_lastDigit hok
    · exact tagDigitsTail_lastDigit hok
  obtain ⟨c, hc, hd⟩ := this
  have hne : csR ≠ [] := by rintro rfl; simp at hc
  refine ⟨c, ?_, hd⟩
  have hsuf' : csR <:+ s.data := hsuf
  rw [getLast_of_suffix hne hsuf', hc]

theorem stripRelEdgeSuffix_lastChar {s q : String} (h : stripRelEdgeSuffix s = some q) :
    s.data.getLast? = some '1' ∨ s.data.getLast? = some '2' := by
  unfold stripRelEdgeSuffix at h
  split at h
  case _ hcond =>
    rw [Bool.or_eq_true] at hcond
    rcases hcond with hc | hc
    · left
      have := List.isSuffixOf_iff_suffix.mp hc
      rw [getLast_of_suffix (by simp) this]
      rfl
    · right
      have := List.isSuffixOf_iff_suffix.mp hc
      rw [getLast_of_suffix (by simp) this]
      rfl
  case _ => cases h

theorem client_table_agree (m : SRoot) (s : String)
    (h1 : matchEqGroupNode s = none) (h2 : matchEqGroupEdge s = none)
    (h3 : clientRelEntity m s = stripRelEdgeSuffix s)
    (h4 : clientRelInstance m s = matchRelInstanceEdge s) :
    resolveNavigationId (some m) s = tableOrderDecode s := by
  cases hre : stripRelEdgeSuffix s with
  | some q =>
    have h5 := stripRelEdgeSuffix_lastChar hre
    have hspec : matchSpecEdge s = none := by
      cases hsp : matchSpecEdge s with
      | none => rfl
      | some g =>
        have := matchSpecEdge_lastChar hsp
        rcases h5 with h5 | h5 <;> rw [this] at h5 <;> exact absurd h5 (by decide)
    have hdeq : matchDirectEq s = none := by
      cases hdq : matchDirectEq s with
      | none => rfl
      | some g =>
        have := matchDirectEq_lastChar hdq
        rcases h5 with h5 | h5 <;> rw [this] at h5 <;> exact absurd h5 (by decide)
    simp only [resolveNavigationId, tableOrderDecode, firstPatternMatch, h3, hre, hspec, hdeq,
      h1, h2]
  | none =>
    cases hri : matchRelInstanceEdge s with
    | some q =>
      obtain ⟨c, hc, hcd⟩ := matchRelInstance_lastDigit hri
      have hspec : matchSpecEdge s = none := by
        cases hsp : matchSpecEdge s with
        | none => rfl
        | some g =>
          have := matchSpecEdge_lastChar hsp
          rw [this] at hc
          cases hc
          exact absurd hcd (by decide)
      have hdeq : matchDirectEq s = none := by
        cases hdq : matchDirectEq s with
        | none => rfl
        | some g =>
          have := matchDirectEq_lastChar hdq
          rw [this] at hc
          cases hc
          exact absurd hcd (by decide)
      simp only [resolveNavigationId, tableOrderDecode, firstPatternMatch, h3, h4, hre, hri,
        hspec, hdeq, h1, h2]
    | none =>
      simp only [resolveNavigationId, tableOrderDecode, firstPatternMatch, h3, h4, hre, hri,
        h1, h2]

/-- C3 amended: the client decode evaluates the patterns in the order
relation-entity edge and relation-instance edge (each guarded by a model
lookup), then equivalence-group edge, equivalence-group node,
specialization, direct equivalence, then the identity fallback — not in the
table order of the specification.  Whenever neither equivalence-group
pattern matches and the two model-guarded checks coincide with the purely
structural checks, the two orders agree. -/
theorem claim_C3_amended (m : SRoot) (s : String) :
    (resolveNavigationId (some m) s =
      firstPatternMatch [clientRelEntity m, clientRelInstance m, matchEqGroupEdge,
        matchEqGroupNode, matchSpecEdge, matchDirectEq] s) ∧
    resolveNavigationId none s = s ∧
    (matchEqGroupNode s = none → matchEqGroupEdge s = none →
      clientRelEntity m s = stripRelEdgeSuffix s →
      clientRelInstance m s = matchRelInstanceEdge s →
      resolveNavigationId (some m) s = tableOrderDecode s) :=
  ⟨rfl, rfl, fun h1 h2 h3 h4 => client_table_agree m s h1 h2 h3 h4⟩

/-- Witness for C3 on a plain member-name identifier, where the client
order and the table order agree. -/
theorem claim_C3_witness :
    resolveNavigationId (some trivialRoot) "SomeName" = tableOrderDecode "SomeName" :=
  (claim_C3_amended trivialRoot "SomeName").2.2 (by decide) (by decide) (by decide) (by decide)

theorem synthEdges_position_none (es : List DEdge) :
    ∀ (used : List String) (assigned : List (String × ℕ)),
      ∀ e ∈ synthEdges es used assigned,
        e.position = none ∧ ∀ l ∈ e.children, l.position = none := by
  induction es with
  | nil => intro used assigned e he; cases he
  | cons e es ih =>
    intro used assigned x hx
    cases hx with
    | head =>
      refine ⟨rfl, ?_⟩
      intro l hl
      cases hlb : e.label with
      | some lbl =>
        simp only [mkSprottyEdge, hlb, List.mem_singleton] at hl
        subst hl
        rfl
      | none =>
        simp only [mkSprottyEdge, hlb, List.not_mem_nil] at hl
    | tail _ hx => exact ih _ _ x hx

theorem noPositions_diagramToSprotty (m : DiagramModel) :
    noPositions (diagramToSprotty m) = true := by
  simp only [noPositions, diagramToSprotty, List.all_append, Bool.and_eq_true, List.all_eq_true]
  constructor
  · intro c hc
    obtain ⟨n, hn, rfl⟩ := List.mem_map.mp hc
    simp [mkSprottyNode]
  · intro c hc
    obtain ⟨h1, h2⟩ := synthEdges_position_none m.edges _ [] c hc
    simp only [Bool.and_eq_true, beq_iff_eq, List.all_eq_true]
    exact ⟨h1, fun l hl => by simpa using h2 l hl⟩

/-- C5: whenever the external layout engine fails on the synthesized graph,
the layout computation returns the pre-layout graph unchanged — a graph in
which no node, edge or label position is populated — and no exception
escapes (the embedding returns a plain value in every case). -/
theorem claim_C5_layout_fails_soft (m : DiagramModel) (hypot : ℚ → ℚ → ℚ)
    (engine : SRoot → Except String SRoot) (err : String)
    (h : engine (diagramToSprotty m) = Except.error err) :
    computeLaidOut hypot (diagramToSprotty m) engine = diagramToSprotty m ∧
      noPositions (diagramToSprotty m) = true := by
  refine ⟨?_, noPositions_diagramToSprotty m⟩
  unfold computeLaidOut
  rw [h]

/-- Witness for C5: an engine that always throws, applied to the Scenario A
graph. -/
theorem claim_C5_witness :
    computeLaidOut (fun _ _ => 0) (diagramToSprotty scenarioAModel)
        (fun _ => Except.error "ELK failure") = diagramToSprotty scenarioAModel ∧
      noPositions (diagramToSprotty scenarioAModel) = true :=
  claim_C5_layout_fails_soft scenarioAModel (fun _ _ => 0) (fun _ => Except.error "ELK failure")
    "ELK failure" rfl

theorem assignedLookup_update_self (a : List (String × ℕ)) (k : String) (v : ℕ) :
    assignedLookup (assignedUpdate a k v) k = some v := by
  induction a with
  | nil => simp [assignedUpdate, assignedLookup]
  | cons p rest ih =>
    by_cases h : p.1 = k
    · simp [assignedUpdate, assignedLookup, h]
    · simp [assignedUpdate, assignedLookup, h, ih]

theorem assignedLookup_update_other (a : List (String × ℕ)) (k : String) (v : ℕ) (n : String)
    (h : k ≠ n) : assignedLookup (assignedUpdate a k v) n = assignedLookup a n := by
  induction a with
  | nil => simp [assignedUpdate, assignedLookup, h]
  | cons p rest ih =>
    by_cases h1 : p.1 = k
    · have h2 : ¬ p.1 = n := by rw [h1]; exact h
      simp [assignedUpdate, assignedLookup, h1, h2, h]
    · by_cases h2 : p.1 = n
      · simp [assignedUpdate, assignedLookup, h1, h2, Ne.symm h]
      · simp [assignedUpdate, assignedLookup, h1, h2, ih]

theorem mkSprottyEdge_sourceId (e : DEdge) (id : String) (k : ℕ) (s l : Bool) :
    (mkSprottyEdge e id k s l).sourceId = some e.source := rfl

theorem mkSprottyEdge_targetId (e : DEdge) (id : String) (k : ℕ) (s l : Bool) :
    (mkSprottyEdge e id k s l).targetId = some e.target := rfl

theorem mkSprottyEdge_labelIndex (e : DEdge) (id : String) (k : ℕ) (s l : Bool) :
    (mkSprottyEdge e id k s l).labelIndex = some k := rfl

theorem mkSprottyEdge_type (e : DEdge) (id : String) (k : ℕ) (s l : Bool) :
    (mkSprottyEdge e id k s l).type = "edge" := rfl

theorem mkSprottyEdge_id (e : DEdge) (id : String) (k : ℕ) (s l : Bool) :
    (mkSprottyEdge e id k s l).id = id := rfl

theorem synthEdges_selfLoop_labelIndexes (n : String) (es : List DEdge) :
    ∀ (used : List String) (assigned : List (String × ℕ)),
      ((synthEdges es used assigned).filter
          (fun e => e.sourceId = some n ∧ e.targetId = some n)).map (fun e => e.labelIndex)
        = (List.range' ((assignedLookup assigned n).getD 0)
            (es.countP (fun e => e.source = n ∧ e.target = n))).map some := by
  induction es with
  | nil => intro used assigned; simp [synthEdges]
  | cons e es ih =>
    intro used assigned
    simp only [Bool.decide_and] at ih
    simp only [synthEdges, List.filter_cons, List.countP_cons]
    by_cases hst : e.source = e.target
    · by_cases hsn : e.source = n
      · have htn : e.target = n := by rw [← hst]; exact hsn
        have hr : ∀ (c k : ℕ), List.range' c (k + 1) = c :: List.range' (c + 1) k :=
          fun c k => List.range'_succ c k 1
        simp [hst, hsn, htn, mkSprottyEdge_sourceId, mkSprottyEdge_targetId,
          mkSprottyEdge_labelIndex, ih, assignedLookup_update_self, hr]
      · have htn : ¬ e.target = n := by rw [← hst]; exact hsn
        simp [hst, hsn, htn, mkSprottyEdge_sourceId, mkSprottyEdge_targetId,
          mkSprottyEdge_labelIndex, ih, assignedLookup_update_other _ _ _ _ hsn,
          assignedLookup_update_other _ _ _ _ htn]
    · have hp : ¬ (e.source = n ∧ e.target = n) := by
        rintro ⟨h1, h2⟩
        exact hst (h1.trans h2.symm)
      simp [hst, hp, mkSprottyEdge_sourceId, mkSprottyEdge_targetId,
        mkSprottyEdge_labelIndex, ih]

theorem mkSprottyNode_type (n : DNode) : (mkSprottyNode n).type = "node:rect" := rfl

theorem mkSprottyNode_id (n : DNode) : (mkSprottyNode n).id = n.id := rfl

theorem synthEdges_all_type (es : List DEdge) :
    ∀ (used : List String) (assigned : List (String × ℕ)),
      ∀ x ∈ synthEdges es used assigned, x.type = "edge" := by
  induction es with
  | nil => intro _ _ x hx; cases hx
  | cons e es ih =>
    intro used assigned x hx
    cases hx with
    | head => exact mkSprottyEdge_type _ _ _ _ _
    | tail _ hx => exact ih _ _ x hx

theorem sprottyEdges_eq (m : DiagramModel) :
    sprottyEdges m = synthEdges m.edges
      (((m.nodes.filter (fun n => n.kind ≠ "relation")).map mkSprottyNode).map (fun c => c.id))
      [] := by
  simp only [sprottyEdges, diagramToSprotty]
  rw [List.filter_append]
  have h1 : List.filter (fun c => decide (c.type = "edge"))
      ((m.nodes.filter (fun n => n.kind ≠ "relation")).map mkSprottyNode) = [] := by
    rw [List.filter_eq_nil_iff]
    intro a ha
    obtain ⟨nn, hnn, rfl⟩ := List.mem_map.mp ha
    simp [mkSprottyNode_type]
  have h2 : List.filter (fun c => decide (c.type = "edge"))
      (synthEdges m.edges
        (((m.nodes.filter (fun n => n.kind ≠ "relation")).map mkSprottyNode).map (fun c => c.id))
        []) = synthEdges m.edges
        (((m.nodes.filter (fun n => n.kind ≠ "relation")).map mkSprottyNode).map (fun c => c.id))
        [] := by
    rw [List.filter_eq_self]
    intro a ha
    simp [synthEdges_all_type _ _ _ a ha]
  rw [h1, h2, List.nil_append]

theorem synthEdges_nonSelfLoop_labelIndex (es : List DEdge) :
    ∀ (used : List String) (assigned : List (String × ℕ)),
      ∀ x ∈ synthEdges es used assigned, x.sourceId ≠ x.targetId → x.labelIndex = some 0 := by
  induction es with
  | nil => intro _ _ x hx; cases hx
  | cons e es ih =>
    intro used assigned x hx hne
    cases hx with
    | head =>
      by_cases hst : e.source = e.target
      · exact absurd (by rw [mkSprottyEdge_sourceId, mkSprottyEdge_targetId, hst]) hne
      · simp [mkSprottyEdge_labelIndex, hst]
    | tail _ hx => exact ih _ _ x hx hne

/-- C6: in every synthesized graph, every edge whose source differs from
its target has label index 0, and for each node the label indexes of the
self-loops on that node are exactly 0, 1, 2, and so on, in first-seen edge
order (as many as there are self-loop edges on that node in the semantic
model). -/
theorem claim_C6_self_loop_label_indexes (m : DiagramModel) (n : String) :
    (∀ e ∈ sprottyEdges m, e.sourceId ≠ e.targetId → e.labelIndex = some 0) ∧
    ((sprottyEdges m).filter (fun e => e.sourceId = some n ∧ e.targetId = some n)).map
        (fun e => e.labelIndex)
      = (List.range (m.edges.countP (fun e => e.source = n ∧ e.target = n))).map some := by
  constructor
  · intro e he hne
    rw [sprottyEdges_eq] at he
    exact synthEdges_nonSelfLoop_labelIndex _ _ _ e he hne
  · rw [sprottyEdges_eq, synthEdges_selfLoop_labelIndexes]
    simp [assignedLookup, List.range_eq_range']

/-- Witness for C6 on a model with two self-loops on node S around an
ordinary edge: the self-loop label indexes are 0 and 1, and the ordinary
edge in between has label index 0. -/
theorem claim_C6_witness :
    ((sprottyEdges selfLoopModel).filter
        (fun e => e.sourceId = some "S" ∧ e.targetId = some "S")).map (fun e => e.labelIndex)
      = [some 0, some 1] ∧
    ((sprottyEdges selfLoopModel).getD 1 default).labelIndex = some 0 :=
  ⟨((claim_C6_self_loop_label_indexes selfLoopModel "S").2).trans (by decide),
   (claim_C6_self_loop_label_indexes selfLoopModel "S").1 _ (by decide) (by decide)⟩

theorem mkSprottyEdge_placement (e : DEdge) (id : String) (k : ℕ) (s l : Bool) :
    optsLookup (mkSprottyEdge e id k s l).layoutOptions elkPlacementKey = some "CENTER" := by
  cases s <;> cases l <;> rfl

theorem synthEdges_placement (es : List DEdge) :
    ∀ (used : List String) (assigned : List (String × ℕ)),
      ∀ x ∈ synthEdges es used assigned,
        optsLookup x.layoutOptions elkPlacementKey = some "CENTER" := by
  induction es with
  | nil => intro _ _ x hx; cases hx
  | cons e es ih =>
    intro used assigned x hx
    cases hx with
    | head => exact mkSprottyEdge_placement _ _ _ _ _
    | tail _ hx => exact ih _ _ x hx

theorem listMapSelf {α : Type} (f : α → α) :
    ∀ (l : List α), (∀ a ∈ l, f a = a) → l.map f = l := by
  intro l
  induction l with
  | nil => intro _; rfl
  | cons a l ih =>
    intro h
    rw [List.map_cons, h a (List.mem_cons_self a l), ih (fun b hb => h b (List.mem_cons_of_mem a hb))]

/-- C10: every edge emitted by the synthesizer carries edge-label placement
CENTER (never TAIL), and whenever the layout engine succeeds and no edge of
the laid-out graph carries TAIL placement, the post-layout adjustment is
the identity: the returned graph is exactly the one produced by the layout
engine, label positions included. -/
theorem claim_C10_labels_unmoved :
    (∀ (m : DiagramModel), ∀ e ∈ (diagramToSprotty m).children, e.type = "edge" →
        optsLookup e.layoutOptions elkPlacementKey = some "CENTER") ∧
    (∀ (hypot : ℚ → ℚ → ℚ) (root laidOut : SRoot) (engine : SRoot → Except String SRoot),
        engine root = Except.ok laidOut →
        (∀ c ∈ laidOut.children, c.type = "edge" →
          optsLookup c.layoutOptions elkPlacementKey ≠ some "TAIL") →
        computeLaidOut hypot root engine = laidOut) := by
  constructor
  · intro m e he ht
    simp only [diagramToSprotty] at he
    rcases List.mem_append.mp he with he | he
    · obtain ⟨nn, hnn, rfl⟩ := List.mem_map.mp he
      rw [mkSprottyNode_type nn] at ht
      exact absurd ht (by decide)
    · exact synthEdges_placement _ _ _ e he
  · intro hypot root laidOut engine heng hcen
    unfold computeLaidOut
    rw [heng]
    have hch : ∀ c ∈ laidOut.children, adjustEdgeLabelChild hypot c = c := by
      intro c hc
      unfold adjustEdgeLabelChild
      by_cases ht : c.type = "edge"
      · rw [if_pos ht]
        cases hf : c.children.find? (fun l => l.type == "label") with
        | none => rfl
        | some lb => rw [if_pos (hcen c hc ht)]
      · rw [if_neg ht]
    have hadj : adjustEdgeLabels hypot laidOut.children = laidOut.children :=
      listMapSelf _ _ hch
    show { laidOut with children := adjustEdgeLabels hypot laidOut.children } = laidOut
    rw [hadj]

/-- Witness for C10: the edge of the encoded Scenario A graph carries
CENTER placement, and an identity engine run on that graph is returned
without any label repositioning. -/
theorem claim_C10_witness :
    optsLookup (scenarioAGraph.children.getLastI).layoutOptions elkPlacementKey
        = some "CENTER" ∧
    computeLaidOut (fun _ _ => 0) scenarioAGraph (fun r => Except.ok r) = scenarioAGraph :=
  ⟨claim_C10_labels_unmoved.1 scenarioAEncodedModel _ (by decide) (by decide),
   claim_C10_labels_unmoved.2 (fun _ _ => 0) scenarioAGraph scenarioAGraph _ rfl (by decide)⟩

theorem toDigitsCore_append (f : ℕ) : ∀ (n : ℕ) (ds : List Char),
    Nat.toDigitsCore 10 f n ds = Nat.toDigitsCore 10 f n [] ++ ds := by
  induction f with
  | zero => intro n ds; simp [Nat.toDigitsCore]
  | succ f ih =>
    intro n ds
    simp only [Nat.toDigitsCore]
    by_cases h : n / 10 = 0
    · simp [h]
    · rw [if_neg h, if_neg h, ih (n / 10) ((n % 10).digitChar :: ds),
        ih (n / 10) [(n % 10).digitChar], List.append_assoc, List.singleton_append]

/-- Numeric value of a decimal digit character. -/
def digitVal (c : Char) : ℕ := c.toNat - '0'.toNat

/-- Numeric value of a most-significant-first decimal digit string. -/
def digitsVal (l : List Char) : ℕ := l.foldl (fun a c => 10 * a + digitVal c) 0

theorem digitsVal_append (l : List Char) (c : Char) :
    digitsVal (l ++ [c]) = 10 * digitsVal l + digitVal c := by
  simp [digitsVal, List.foldl_append]

theorem digitVal_digitChar (m : ℕ) (h : m < 10) : digitVal (Nat.digitChar m) = m := by
  interval_cases m <;> rfl

theorem digitsVal_toDigitsCore (n : ℕ) : ∀ (f : ℕ), n < f →
    digitsVal (Nat.toDigitsCore 10 f n []) = n := by
  induction n using Nat.strong_induction_on with
  | _ n ih =>
    intro f hf
    match f, hf with
    | f + 1, hf =>
      simp only [Nat.toDigitsCore]
      by_cases h : n / 10 = 0
      · rw [if_pos h]
        have hn : n < 10 := by omega
        have : digitsVal [(n % 10).digitChar] = digitVal ((n % 10).digitChar) := by
          simp [digitsVal]
        rw [this, digitVal_digitChar (n % 10) (Nat.mod_lt _ (by norm_num))]
        omega
      · rw [if_neg h]
        have hpos : 0 < n := by
          rcases Nat.eq_zero_or_pos n with h0 | h0
          · exfalso; apply h; rw [h0]
          · exact h0
        have h1 : n / 10 < n := Nat.div_lt_self hpos (by norm_num)
        have h2 : n / 10 < f := by omega
        rw [toDigitsCore_append, digitsVal_append, ih (n / 10) h1 f h2,
          digitVal_digitChar (n % 10) (Nat.mod_lt _ (by norm_num))]
        omega

theorem natRepr_inj {m n : ℕ} (h : Nat.repr m = Nat.repr n) : m = n := by
  have hd : Nat.toDigitsCore 10 (m + 1) m [] = Nat.toDigitsCore 10 (n + 1) n [] :=
    congrArg String.data h
  have h1 := digitsVal_toDigitsCore m (m + 1) (Nat.lt_succ_self m)
  have h2 := digitsVal_toDigitsCore n (n + 1) (Nat.lt_succ_self n)
  rw [hd, h2] at h1
  exact h1.symm

theorem uniqueIdCandidate_inj (base : String) {i j : ℕ}
    (h : uniqueIdCandidate base i = uniqueIdCandidate base j) : i = j := by
  unfold uniqueIdCandidate at h
  have hd := congrArg String.data h
  have hd2 : (base.data ++ [':']) ++ (Nat.repr i).data = (base.data ++ [':']) ++ (Nat.repr j).data :=
    hd
  exact natRepr_inj (String.ext (List.append_cancel_left hd2))

theorem exists_fresh_candidate (used : List String) (base : String) :
    ∃ j, 1 ≤ j ∧ j ≤ used.length + 1 ∧ uniqueIdCandidate base j ∉ used := by
  by_contra hcon
  push_neg at hcon
  set L := (List.range' 1 (used.length + 1)).map (uniqueIdCandidate base) with hL
  have hsub : ∀ x ∈ L, x ∈ used := by
    intro x hx
    obtain ⟨j, hj, rfl⟩ := List.mem_map.mp hx
    have hj' := List.mem_range'_1.mp hj
    exact hcon j hj'.1 (by omega)
  have hnd : L.Nodup := by
    refine List.Nodup.map (fun a b hab => uniqueIdCandidate_inj base hab) ?_
    exact List.nodup_range' _ _
  have hlen : L.length = used.length + 1 := by simp [hL]
  have hcard : used.length + 1 ≤ used.length := by
    calc used.length + 1 = L.toFinset.card := by
          rw [List.toFinset_card_of_nodup hnd, hlen]
      _ ≤ used.toFinset.card := by
          apply Finset.card_le_card
          intro x hx
          rw [List.mem_toFinset] at hx ⊢
          exact hsub x hx
      _ ≤ used.length := used.toFinset_card_le
  omega

theorem uniqueIdLoop_not_mem (used : List String) (base : String) :
    ∀ (fuel i : ℕ), (∃ j, i ≤ j ∧ j < i + fuel ∧ uniqueIdCandidate base j ∉ used) →
      uniqueIdLoop used base fuel i ∉ used := by
  intro fuel
  induction fuel with
  | zero =>
    rintro i ⟨j, h1, h2, -⟩
    omega
  | succ fuel ih =>
    rintro i ⟨j, h1, h2, h3⟩
    simp only [uniqueIdLoop]
    by_cases hc : uniqueIdCandidate base i ∈ used
    · rw [if_pos hc]
      apply ih (i + 1)
      have hne : j ≠ i := fun hji => h3 (hji ▸ hc)
      exact ⟨j, by omega, by omega, h3⟩
    · rw [if_neg hc]; exact hc

theorem makeUniqueId_not_mem (used : List String) (base : String) :
    makeUniqueId used base ∉ used := by
  unfold makeUniqueId
  by_cases hb : base ∈ used
  · rw [if_pos hb]
    obtain ⟨j, hj1, hj2, hj3⟩ := exists_fresh_candidate used base
    exact uniqueIdLoop_not_mem used base (used.length + 1) 1 ⟨j, hj1, by omega, hj3⟩
  · rw [if_neg hb]; exact hb

theorem synthEdges_ids_fresh (es : List DEdge) :
    ∀ (used : List String) (assigned : List (String × ℕ)),
      (∀ x ∈ synthEdges es used assigned, x.id ∉ used) ∧
        ((synthEdges es used assigned).map (fun x => x.id)).Nodup := by
  induction es with
  | nil =>
    intro _ _
    exact ⟨fun x hx => absurd hx (List.not_mem_nil x), List.nodup_nil⟩
  | cons e es ih =>
    intro used assigned
    constructor
    · intro x hx
      rcases List.mem_cons.mp hx with rfl | hx
      · rw [mkSprottyEdge_id]
        exact makeUniqueId_not_mem used (edgeBase e)
      · intro hxin
        exact (ih _ _).1 x hx (List.mem_cons_of_mem _ hxin)
    · apply List.nodup_cons.mpr
      refine ⟨?_, (ih _ _).2⟩
      intro hmem
      obtain ⟨y, hy, hyid⟩ := List.mem_map.mp hmem
      apply (ih _ _).1 y hy
      rw [hyid]
      show (mkSprottyEdge _ _ _ _ _).id ∈ _
      rw [mkSprottyEdge_id]
      exact List.mem_cons_self _ _

/-- C9 counterexample: node ids are copied verbatim and never
disambiguated, so a model with two nodes of the same id yields a graph
whose element ids are not pairwise distinct. -/
theorem claim_C9_counterexample :
    ¬ (((diagramToSprotty dupNodeModel).children).map (fun c => c.id)).Nodup := by decide

/-- C9 amended: provided the (non-relation) node ids of the semantic model
are pairwise distinct, all element ids of the synthesized graph — node ids
together with edge ids — are pairwise distinct: each edge id is
disambiguated against the set of node ids and previously assigned edge
ids. -/
theorem claim_C9_all_ids_distinct (m : DiagramModel)
    (h : ((m.nodes.filter (fun n => n.kind ≠ "relation")).map (fun n => n.id)).Nodup) :
    (((diagramToSprotty m).children).map (fun c => c.id)).Nodup := by
  simp only [diagramToSprotty, List.map_append]
  rw [List.nodup_append]
  have hcomp : ((fun c : SElem => c.id) ∘ mkSprottyNode) = fun n : DNode => n.id := rfl
  have hmapmap : ((m.nodes.filter (fun n => n.kind ≠ "relation")).map mkSprottyNode).map
      (fun c => c.id) = (m.nodes.filter (fun n => n.kind ≠ "relation")).map (fun n => n.id) := by
    rw [List.map_map, hcomp]
  refine ⟨hmapmap ▸ h, (synthEdges_ids_fresh _ _ _).2, ?_⟩
  intro a ha hb
  obtain ⟨y, hy, hyid⟩ := List.mem_map.mp hb
  apply (synthEdges_ids_fresh _ _ _).1 y hy
  rw [hyid]
  rw [hmapmap] at ha
  have hcomp2 : ((fun c : SElem => c.id) ∘ mkSprottyNode) = fun n : DNode => n.id := rfl
  rw [List.map_map, hcomp2]
  exact ha

/-- Witness for C9: the self-loop model has distinct node ids, and all
element ids of its synthesized graph are pairwise distinct. -/
theorem claim_C9_witness :
    (((diagramToSprotty selfLoopModel).children).map (fun c => c.id)).Nodup :=
  claim_C9_all_ids_distinct selfLoopModel (by decide)
